import Mathlib

/-!
Shallow embedding of the support-ticket RAG pipeline
(`src/rag/references.py`, `src/rag/retriever.py`, `src/rag/rag_pipeline.py`,
`src/rag/query_rewriter.py`, `src/rag/action_classifier.py`,
`src/rag/schemas.py`, `src/rag/generation.py`) and verification of the
specification's claims about it.

Numeric values that the Python code holds as `float` are modelled as
exact rationals (`ℚ`); Python's `round(x, 3)` is modelled as
round-half-to-even at three decimals over `ℚ`.
-/

namespace Rag

/-! ### Python string primitives -/

/-- The code points for which Python's `str.isspace` holds; these are the
characters removed by `str.strip()` and matched by the regex class `\s`. -/
def pyIsSpace (c : Char) : Bool :=
  c ∈ [' ', '\t', '\n', '\r', '\x0b', '\x0c',
       '\x1c', '\x1d', '\x1e', '\x1f', '\x85', '\xa0',
       '\u1680', '\u2000', '\u2001', '\u2002', '\u2003', '\u2004',
       '\u2005', '\u2006', '\u2007', '\u2008', '\u2009', '\u200a',
       '\u2028', '\u2029', '\u202f', '\u205f', '\u3000']

/-- Remove leading whitespace (Python `str.lstrip()`). -/
def pyStripL (l : List Char) : List Char := l.dropWhile pyIsSpace

/-- Remove trailing whitespace (Python `str.rstrip()`). -/
def pyStripR (l : List Char) : List Char := (l.reverse.dropWhile pyIsSpace).reverse

/-- Python `str.strip()` on a character list. -/
def pyStripChars (l : List Char) : List Char := pyStripL (pyStripR l)

/-- Python `str.strip()` on a string. -/
def pyStrip (s : String) : String := String.mk (pyStripChars s.data)

/-! ### Python `round(x, 3)` over exact rationals -/

/-- Round a rational to the nearest integer, ties to even
(Python's `round` on a non-negative-exponent value). -/
def roundHalfEven (q : ℚ) : ℤ :=
  let f : ℤ := ⌊q⌋
  if q - f < 1/2 then f
  else if q - f > 1/2 then f + 1
  else if 2 ∣ f then f else f + 1

/-- Python `round(x, 3)`. -/
def round3 (q : ℚ) : ℚ := (roundHalfEven (q * 1000) : ℚ) / 1000

/-! ### Data model

Documents are `langchain` `Document` values; the pipeline reads the
metadata keys `category`, `source_file`, `section`, `subsection` and
`relevance_score` (each possibly absent). -/

/-- The document-metadata keys read by the pipeline.  The Python key
`section` is spelled `sectionKey` because `section` is a Lean keyword. -/
structure DocMeta where
  category : Option String := none
  source_file : Option String := none
  sectionKey : Option String := none
  subsection : Option String := none
  relevance_score : Option ℚ := none
deriving DecidableEq

/-- A retrieved document: `page_content` plus metadata. -/
structure Doc where
  page_content : String
  metadata : DocMeta := {}
deriving DecidableEq

/-! ### `references.py` -/

/-- Embeds `format_reference` from `src/rag/references.py`.  The literal that the
source file places before the subsection is the two Thai characters
U+0E22 U+0E07 (the bytes `E0 B8 A2 E0 B8 87`), not the section sign
U+00A7; the embedding reproduces the source bytes.  A `subsection` value
is appended only when it is truthy (present and non-empty). -/
def format_reference (doc : Doc) : String :=
  let category := doc.metadata.category.getD "unknown"
  let source_file := doc.metadata.source_file.getD "unknown_file"
  let sec := doc.metadata.sectionKey.getD "Unknown Doc"
  let subsection := doc.metadata.subsection
  let parts : List String := [category ++ ": " ++ sec]
  let parts := parts ++
    (match subsection with
     | some sub => if sub = "" then [] else ["ยง " ++ sub]
     | none => [])
  let parts := parts ++ ["file=" ++ source_file]
  String.intercalate " | " parts

/-- Embeds `select_top_references` from `src/rag/references.py`. -/
def select_top_references (docs : List Doc) (k : Nat := 3) : List String :=
  (docs.take k).map format_reference

/-! ### `retriever.py` — retrieval quality evaluation -/

/-- The result dictionary of `evaluate_retrieval`: the two shapes it
returns (the empty-scores shape and the scored shape) carry different
keys, so every key is optional. -/
structure EvalResult where
  quality : String
  reason : Option String := none
  avg_relevance_score : Option ℚ := none
  top_relevance_score : Option ℚ := none
  score_gap : Option ℚ := none
  num_results : Option Nat := none
  categories_covered : Option (List String) := none
deriving DecidableEq

/-- The distinct `category` metadata values of `docs` (missing category
defaults to `"unknown"`), sorted ascending — Python's
`sorted({d.metadata.get("category", "unknown") for d in docs})`. -/
def categoriesCovered (docs : List Doc) : List String :=
  ((docs.map (fun d => d.metadata.category.getD "unknown")).eraseDups).insertionSort
    (fun a b => a ≤ b)

/-- Embeds `evaluate_retrieval` from `src/rag/retriever.py`. -/
def evaluate_retrieval (scores : List ℚ) (docs : List Doc) : EvalResult :=
  match scores with
  | [] => { quality := "poor", reason := some "no_documents_retrieved" }
  | s0 :: rest =>
    let avg_score := (s0 :: rest).sum / ((s0 :: rest).length : ℚ)
    let top_score := s0
    let score_gap := match rest with
      | s1 :: _ => s0 - s1
      | [] => s0
    let quality :=
      if top_score > 4 ∧ score_gap > 3/5 then "good"
      else if top_score > 3 then "partially good"
      else "poor"
    { quality := quality,
      avg_relevance_score := some (round3 avg_score),
      top_relevance_score := some (round3 top_score),
      score_gap := some (round3 score_gap),
      num_results := some docs.length,
      categories_covered := some (categoriesCovered docs) }

/-! ### `rag_pipeline.py` — cross-query aggregation -/

/-- The initial `best_eval = {"quality": "poor"}` of `resolve_ticket`. -/
def initBestEval : EvalResult := { quality := "poor" }

/-- One iteration of `resolve_ticket`'s per-query loop over `best_eval`:
adopt the assessment when its quality is `"good"`, or when its quality is
`"weak"` and no `"good"` assessment has been adopted yet. -/
def bestEvalStep (best e : EvalResult) : EvalResult :=
  if e.quality = "good" then e
  else if e.quality = "weak" ∧ best.quality ≠ "good" then e
  else best

/-- The aggregate quality assessment: fold of `bestEvalStep` over the
per-query assessments in query order. -/
def aggregateEval (evals : List EvalResult) : EvalResult :=
  evals.foldl bestEvalStep initBestEval

/-- Python dict assignment `m[d.page_content] = d` on an insertion-ordered
dictionary represented as an association list: an existing key keeps its
position and gets the new value, a new key is appended. -/
def dictInsert : List (String × Doc) → Doc → List (String × Doc)
  | [], d => [(d.page_content, d)]
  | (k, v) :: rest, d =>
    if k = d.page_content then (k, d) :: rest
    else (k, v) :: dictInsert rest d

/-- Embeds `resolve_ticket`'s dedup dict built over all retrieved documents:
`dedup = {}`, then `dedup[d.page_content] = d` for each document. -/
def dedupDict (all_docs : List Doc) : List (String × Doc) :=
  all_docs.foldl dictInsert []

/-- Python `dedup.values()`: the deduplicated document pool in key-insertion order. -/
def dedupPool (all_docs : List Doc) : List Doc :=
  (dedupDict all_docs).map Prod.snd

/-- The sort key of `resolve_ticket`'s global ranking:
`d.metadata.get("relevance_score", float("-inf"))`, a missing score
behaving as negative infinity. -/
def rankKey (d : Doc) : WithBot ℚ :=
  match d.metadata.relevance_score with
  | some q => (q : WithBot ℚ)
  | none => ⊥

/-- Python `sorted(dedup.values(), key=..., reverse=True)`: stable descending
sort of the pool by `rankKey` (a stable sort is extensionally unique, so
insertion sort here has exactly the output of Python's sort). -/
def globalRanked (all_docs : List Doc) : List Doc :=
  (dedupPool all_docs).insertionSort (fun a b => rankKey b ≤ rankKey a)

/-- Computes `final_docs = global_ranked[:4]` over the concatenation (in query
order) of the per-query kept document lists. -/
def finalRankedDocs (docLists : List (List Doc)) : List Doc :=
  (globalRanked docLists.flatten).take 4

/-- The generated result dictionary fields that `resolve_ticket`
manipulates after `generate_answer` returns. -/
structure GenResult where
  answer : String
  references : List String
  action_required : String
deriving DecidableEq

/-- The safety override at the end of `resolve_ticket`: when the
aggregate quality is `"poor"` and the generated `action_required` is
`"none"`, replace it with `"follow_up_required"`. -/
def applySafetyOverride (bestQuality : String) (result : GenResult) : GenResult :=
  if bestQuality = "poor" then
    if result.action_required = "none" then
      { result with action_required := "follow_up_required" }
    else result
  else result

/-! ### `query_rewriter.py` -/

/-- The code points at which Python's `str.splitlines` breaks a line. -/
def pyIsLineBreak (c : Char) : Bool :=
  c ∈ ['\n', '\r', '\x0b', '\x0c', '\x1c', '\x1d', '\x1e',
       '\x85', '\u2028', '\u2029']

/-- Worker for `str.splitlines`: `acc` holds the current line reversed;
`"\r\n"` counts as a single break; a trailing break opens no new line. -/
def splitlinesAux : List Char → List Char → List (List Char)
  | [], acc => if acc = [] then [] else [acc.reverse]
  | '\r' :: '\n' :: rest, acc => acc.reverse :: splitlinesAux rest []
  | c :: rest, acc =>
    if pyIsLineBreak c then acc.reverse :: splitlinesAux rest []
    else splitlinesAux rest (c :: acc)

/-- Python `str.splitlines`. -/
def pySplitlines (s : String) : List (List Char) := splitlinesAux s.data []

/-- Python `s.lstrip("-•")`: drop leading `-` and `•` characters. -/
def stripBulletChars (l : List Char) : List Char :=
  l.dropWhile (fun c => c ∈ ['-', '•'])

/-- Python `re.sub(r"^\d+[\.\)]\s*", "", s)`: remove a leading run of digits
followed by `.` or `)` and any following whitespace (the character class
after `\d+` cannot match a digit, so maximal-munch digits is exact). -/
def stripNumMarker (l : List Char) : List Char :=
  let ds := l.takeWhile Char.isDigit
  match l.drop ds.length with
  | c :: rest =>
    if ds ≠ [] ∧ (c = '.' ∨ c = ')') then rest.dropWhile pyIsSpace
    else l
  | [] => l

/-- The per-line cleaning of `rewrite_ticket`: strip the line, drop it if
blank, strip leading bullets then strip again, remove a numeric list
marker, drop the line if it became empty. -/
def cleanLine (line : List Char) : Option (List Char) :=
  let s := pyStripChars line
  if s = [] then none
  else
    let s := pyStripChars (stripBulletChars s)
    let s := stripNumMarker s
    if s = [] then none else some s

/-- The `seen`-set deduplication loop of `rewrite_ticket`: keep the first
occurrence of each string, preserving order. -/
def dedupKeepFirst (l : List (List Char)) : List (List Char) :=
  l.foldl (fun out q => if q ∈ out then out else out ++ [q]) []

/-- The queries `rewrite_ticket` produces from the collaborator's raw
response (`None` behaves as the empty string via `response or ""`). -/
def rewrittenQueries (response : Option String) : List String :=
  ((dedupKeepFirst ((pySplitlines (response.getD "")).filterMap cleanLine)).take 5).map
    String.mk

/-- Embeds `rewrite_ticket` from `src/rag/query_rewriter.py`; the collaborator
call is modelled by its returned text.  A blank ticket raises
`ValueError`. -/
def rewrite_ticket (ticket_text : String) (response : Option String) :
    Except String (List String) :=
  if ticket_text = "" ∨ pyStrip ticket_text = "" then
    .error "ticket_text must be non-empty"
  else .ok (rewrittenQueries response)

/-! ### `action_classifier.py` -/

/-- Python `np.max` over a nonempty list of similarities (`infer_action` only
applies it to the per-action prototype-similarity rows, which are
nonempty for every action in `ACTION_PROTOTYPES`). -/
def listMax : List ℚ → ℚ
  | [] => 0
  | h :: t => t.foldl max h

/-- One iteration of `infer_action`'s selection loop: adopt an action
when its maximal prototype similarity strictly exceeds the best so far. -/
def bestStep (best : String × ℚ) (p : String × List ℚ) : String × ℚ :=
  let max_sim := listMax p.2
  if max_sim > best.2 then (p.1, max_sim) else best

/-- The selection loop of `infer_action`: fold over the per-action
similarity rows starting from `("no_action", 0.0)`. -/
def bestAction (sims : List (String × List ℚ)) : String × ℚ :=
  sims.foldl bestStep ("no_action", 0)

/-- Embeds `infer_action` from `src/rag/action_classifier.py`.  The external
embedding model is represented by the similarity rows it yields: for
each action label, the dot products of its normalized prototype
embeddings with the normalized answer embedding. -/
def infer_action (answer : String) (sims : List (String × List ℚ))
    (threshold : ℚ := 1/2) : String × ℚ :=
  if answer = "" ∨ pyStrip answer = "" then ("no_action", 0)
  else
    let best := bestAction sims
    if best.2 < threshold then ("no_action", round3 best.2)
    else (best.1, round3 best.2)

/-! ### `schemas.py` and `generation.py` -/

/-- The closed `ActionRequired` literal enum of `src/rag/schemas.py`. -/
def actionEnum : List String :=
  ["none", "customer_action_required", "follow_up_required",
   "escalate_to_support", "escalate_to_abuse_team",
   "escalate_to_billing", "escalate_to_technical"]

/-- The `references` field validator:
`[r.strip() for r in refs if r and r.strip()]`. -/
def cleanedRefs (refs : List String) : List String :=
  refs.filterMap (fun r =>
    if r ≠ "" ∧ pyStrip r ≠ "" then some (pyStrip r) else none)

/-- A validated `MCPResponse`. -/
structure MCPResponse where
  answer : String
  references : List String
  action_required : String
deriving DecidableEq

/-- Construction of `MCPResponse` from `src/rag/schemas.py`: the field
constraints (`answer` length in 1..5000), the `answer` non-blank
validator, the `references` cleaning validator with its cap of 3, and
the `action_required` literal-enum check; any violation raises a
pydantic `ValidationError`, modelled as `.error`. -/
def mcpValidate (answer : String) (references : List String)
    (action_required : String) : Except String MCPResponse :=
  if answer.length < 1 then .error "answer too short"
  else if answer.length > 5000 then .error "answer too long"
  else
    let a := pyStrip answer
    if a = "" then .error "answer must be non-empty"
    else
      let refs := cleanedRefs references
      if refs.length > 3 then .error "at most 3 references allowed"
      else if action_required ∉ actionEnum then .error "invalid action_required"
      else .ok { answer := a, references := refs, action_required := action_required }

/-- The sentinel normalization in `generate_answer`
(`src/rag/generation.py`): `if action_required in ("none", "no_action"):
action_required = "none"`. -/
def normalizeAction (a : String) : String :=
  if a = "none" ∨ a = "no_action" then "none" else a

/-- Key lookup in the association-list dictionary. -/
def dlookup (k : String) : List (String × Doc) → Option Doc
  | [] => none
  | (k2, v) :: rest => if k2 = k then some v else dlookup k rest

/-! ### Helper lemmas -/

/-- The only quality labels `evaluate_retrieval` can produce. -/
lemma quality_mem_of_evaluate (scores : List ℚ) (docs : List Doc) :
    (evaluate_retrieval scores docs).quality ∈
      (["good", "partially good", "poor"] : List String) := by
  cases scores with
  | nil => simp [evaluate_retrieval]
  | cons s0 rest =>
    simp only [evaluate_retrieval]
    split_ifs <;> simp

/-- The evaluator `evaluate_retrieval` never yields the `"weak"` label. -/
lemma quality_ne_weak_of_evaluate (scores : List ℚ) (docs : List Doc) :
    (evaluate_retrieval scores docs).quality ≠ "weak" := by
  have h := quality_mem_of_evaluate scores docs
  simp only [List.mem_cons, List.not_mem_nil, or_false] at h
  rcases h with h | h | h <;> rw [h] <;> decide

/-- Cons under `getLast?.getD`: `(x :: l).getLast?.getD b` forgets `b`: it is `l.getLast?.getD x`. -/
lemma getLastD_cons_eq {α : Type} (x b : α) (l : List α) :
    ((x :: l).getLast?).getD b = (l.getLast?).getD x := by
  cases hl : l.getLast? with
  | none =>
    rw [List.getLast?_eq_none_iff] at hl
    subst hl
    rfl
  | some z =>
    rcases List.getLast?_eq_some_iff.mp hl with ⟨ys, rfl⟩
    rw [show x :: (ys ++ [z]) = (x :: ys) ++ [z] by rfl]
    rw [List.getLast?_append]
    rfl

/-- The per-query `best_eval` fold, for assessments that never carry the
`"weak"` label: the result is the last `"good"` assessment, or the
starting value when none occurs. -/
lemma foldl_bestEvalStep (evals : List EvalResult)
    (h : ∀ e ∈ evals, e.quality ≠ "weak") (b : EvalResult) :
    evals.foldl bestEvalStep b =
      ((evals.filter (fun e => e.quality == "good")).getLast?).getD b := by
  induction evals generalizing b with
  | nil => rfl
  | cons e t ih =>
    rw [List.foldl_cons, List.filter_cons]
    by_cases he : e.quality = "good"
    · have hstep : bestEvalStep b e = e := by simp [bestEvalStep, he]
      rw [hstep, if_pos (by simp [he])]
      rw [ih (fun x hx => h x (List.mem_cons_of_mem e hx)) e]
      exact (getLastD_cons_eq e b _).symm
    · have hw : e.quality ≠ "weak" := h e (List.mem_cons_self e t)
      have hstep : bestEvalStep b e = b := by
        simp [bestEvalStep, he, hw]
      rw [hstep, if_neg (by simp [he])]
      exact ih (fun x hx => h x (List.mem_cons_of_mem e hx)) b

/-- Round-half-even keeps non-negative values non-negative. -/
lemma roundHalfEven_nonneg {q : ℚ} (h : 0 ≤ q) : 0 ≤ roundHalfEven q := by
  unfold roundHalfEven
  have hf : (0 : ℤ) ≤ ⌊q⌋ := Int.floor_nonneg.mpr h
  dsimp only
  split_ifs <;> omega

/-- Round-half-even never rounds above an integer upper bound. -/
lemma roundHalfEven_le {q : ℚ} {n : ℤ} (h : q ≤ (n : ℚ)) : roundHalfEven q ≤ n := by
  have hfl : ⌊q⌋ ≤ n := by
    have h1 := Int.floor_le_floor h
    simpa using h1
  unfold roundHalfEven
  dsimp only
  split_ifs with h1 h2 h3
  · exact hfl
  · have hhalf : (⌊q⌋ : ℚ) + 1/2 ≤ q := by
      have h4 := not_lt.mp h1
      linarith
    have h5 : (⌊q⌋ : ℚ) < (n : ℚ) := by linarith
    have h6 : ⌊q⌋ < n := by exact_mod_cast h5
    omega
  · exact hfl
  · have hhalf : (⌊q⌋ : ℚ) + 1/2 ≤ q := by
      have h4 := not_lt.mp h1
      linarith
    have h5 : (⌊q⌋ : ℚ) < (n : ℚ) := by linarith
    have h6 : ⌊q⌋ < n := by exact_mod_cast h5
    omega

/-- Rounding `round3` keeps non-negative values non-negative. -/
lemma round3_nonneg {q : ℚ} (h : 0 ≤ q) : 0 ≤ round3 q := by
  unfold round3
  have h1 : (0 : ℤ) ≤ roundHalfEven (q * 1000) := roundHalfEven_nonneg (by positivity)
  have h2 : (0 : ℚ) ≤ (roundHalfEven (q * 1000) : ℚ) := by exact_mod_cast h1
  positivity

/-- Rounding `round3` never rounds a value `≤ 1` above `1`. -/
lemma round3_le_one {q : ℚ} (h : q ≤ 1) : round3 q ≤ 1 := by
  unfold round3
  have h1000 : q * 1000 ≤ ((1000 : ℤ) : ℚ) := by push_cast; linarith
  have h1 := roundHalfEven_le h1000
  rw [div_le_one (by norm_num)]
  exact_mod_cast h1

/-- Folding `max` from a start below a bound stays below the bound. -/
lemma foldl_max_le {c : ℚ} : ∀ (t : List ℚ) (a : ℚ), a ≤ c → (∀ x ∈ t, x ≤ c) →
    t.foldl max a ≤ c := by
  intro t
  induction t with
  | nil => intro a ha _; simpa using ha
  | cons b t ih =>
    intro a ha h
    rw [List.foldl_cons]
    exact ih (max a b) (max_le ha (h b (List.mem_cons_self b t)))
      (fun x hx => h x (List.mem_cons_of_mem b hx))

/-- Python `np.max` of a list bounded by `c ≥ 0` is bounded by `c`. -/
lemma listMax_le {l : List ℚ} {c : ℚ} (hc : 0 ≤ c) (h : ∀ x ∈ l, x ≤ c) :
    listMax l ≤ c := by
  cases l with
  | nil => simpa [listMax] using hc
  | cons a t =>
    exact foldl_max_le t a (h a (List.mem_cons_self a t))
      (fun x hx => h x (List.mem_cons_of_mem a hx))

/-- The best score of the selection loop is never negative. -/
lemma bestAction_snd_nonneg (sims : List (String × List ℚ)) :
    0 ≤ (bestAction sims).2 := by
  unfold bestAction
  have aux : ∀ (l : List (String × List ℚ)) (b : String × ℚ), 0 ≤ b.2 →
      0 ≤ (l.foldl bestStep b).2 := by
    intro l
    induction l with
    | nil => intro b hb; exact hb
    | cons p t ih =>
      intro b hb
      rw [List.foldl_cons]
      apply ih
      unfold bestStep
      dsimp only
      split_ifs with h
      · exact le_of_lt (lt_of_le_of_lt hb h)
      · exact hb
  exact aux sims ("no_action", 0) le_rfl

/-- When every similarity is at most `1`, the best score is at most `1`. -/
lemma bestAction_snd_le_one (sims : List (String × List ℚ))
    (h : ∀ p ∈ sims, ∀ s ∈ p.2, s ≤ 1) : (bestAction sims).2 ≤ 1 := by
  unfold bestAction
  have aux : ∀ (l : List (String × List ℚ)), (∀ p ∈ l, ∀ s ∈ p.2, s ≤ 1) →
      ∀ (b : String × ℚ), b.2 ≤ 1 → (l.foldl bestStep b).2 ≤ 1 := by
    intro l
    induction l with
    | nil => intro _ b hb; exact hb
    | cons p t ih =>
      intro hl b hb
      rw [List.foldl_cons]
      apply ih (fun x hx => hl x (List.mem_cons_of_mem p hx))
      unfold bestStep
      dsimp only
      split_ifs with hgt
      · exact listMax_le (by norm_num) (hl p (List.mem_cons_self p t))
      · exact hb
  exact aux sims h ("no_action", 0) (by norm_num)

/-- The head surviving a `dropWhile` fails the dropped predicate. -/
lemma head?_dropWhile_not (p : Char → Bool) (l : List Char) {c : Char}
    (h : (l.dropWhile p).head? = some c) : p c = false := by
  induction l with
  | nil => simp [List.dropWhile] at h
  | cons a t ih =>
    rw [List.dropWhile_cons] at h
    by_cases hp : p a = true
    · rw [if_pos hp] at h
      exact ih h
    · rw [if_neg hp] at h
      rw [List.head?_cons, Option.some.injEq] at h
      subst h
      exact Bool.not_eq_true _ ▸ eq_false_of_ne_true hp

/-- List `dropWhile` is the identity when the head fails the predicate. -/
lemma dropWhile_eq_self_of_head (p : Char → Bool) (l : List Char)
    (h : ∀ c, l.head? = some c → p c = false) : l.dropWhile p = l := by
  cases l with
  | nil => rfl
  | cons a t =>
    rw [List.dropWhile_cons]
    simp [h a rfl]

/-- The last element of a nonempty suffix is the last element of the whole. -/
lemma getLast?_of_suffix {l m : List Char} (h : l <:+ m) {c : Char}
    (hc : l.getLast? = some c) : m.getLast? = some c := by
  rcases h with ⟨t, rfl⟩
  rw [List.getLast?_append, hc]
  rfl

/-- A stripped list starts with a non-space character. -/
lemma head?_pyStripChars {l : List Char} {c : Char}
    (h : (pyStripChars l).head? = some c) : pyIsSpace c = false :=
  head?_dropWhile_not pyIsSpace (pyStripR l) h

/-- A stripped list ends with a non-space character. -/
lemma getLast?_pyStripChars {l : List Char} {c : Char}
    (h : (pyStripChars l).getLast? = some c) : pyIsSpace c = false := by
  have hsuf : pyStripChars l <:+ pyStripR l := List.dropWhile_suffix _
  have h2 : (pyStripR l).getLast? = some c := getLast?_of_suffix hsuf h
  rw [pyStripR, List.getLast?_reverse] at h2
  exact head?_dropWhile_not pyIsSpace l.reverse h2

/-- Stripping is the identity on lists that neither start nor end with
whitespace. -/
lemma pyStripChars_eq_self {l : List Char}
    (h1 : ∀ c, l.head? = some c → pyIsSpace c = false)
    (h2 : ∀ c, l.getLast? = some c → pyIsSpace c = false) :
    pyStripChars l = l := by
  have hR : pyStripR l = l := by
    rw [pyStripR, dropWhile_eq_self_of_head pyIsSpace l.reverse (by
      intro c hc
      rw [List.head?_reverse] at hc
      exact h2 c hc)]
    exact List.reverse_reverse l
  rw [pyStripChars, hR, pyStripL]
  exact dropWhile_eq_self_of_head pyIsSpace l h1

/-- The numeric-marker stripper returns a suffix of its input. -/
lemma stripNumMarker_suffix (l : List Char) : stripNumMarker l <:+ l := by
  unfold stripNumMarker
  dsimp only
  split
  case _ c rest heq =>
    split_ifs with hds
    · have h1 : rest.dropWhile pyIsSpace <:+ rest := List.dropWhile_suffix _
      have hdrop : c :: rest <:+ l := heq ▸ List.drop_suffix _ l
      have h2 : rest <:+ l := by
        rcases hdrop with ⟨t, ht⟩
        exact ⟨t ++ [c], by simpa using ht⟩
      exact h1.trans h2
    · exact List.suffix_refl l
  case _ => exact List.suffix_refl l

/-- The numeric-marker stripper preserves a non-space head. -/
lemma stripNumMarker_head {l : List Char}
    (hin : ∀ c, l.head? = some c → pyIsSpace c = false) :
    ∀ c, (stripNumMarker l).head? = some c → pyIsSpace c = false := by
  unfold stripNumMarker
  dsimp only
  split
  case _ c rest heq =>
    split_ifs with hds
    · intro c' hc'
      exact head?_dropWhile_not pyIsSpace rest hc'
    · exact hin
  case _ => exact hin

/-- The numeric-marker stripper preserves a non-space last character. -/
lemma stripNumMarker_getLast {l : List Char}
    (hin : ∀ c, l.getLast? = some c → pyIsSpace c = false) :
    ∀ c, (stripNumMarker l).getLast? = some c → pyIsSpace c = false :=
  fun c hc => hin c (getLast?_of_suffix (stripNumMarker_suffix l) hc)

/-- A line kept by `cleanLine` is nonempty and already stripped. -/
lemma cleanLine_stripped {line s : List Char} (h : cleanLine line = some s) :
    s ≠ [] ∧ pyStripChars s = s := by
  unfold cleanLine at h
  dsimp only at h
  split_ifs at h with h1 h2
  obtain rfl : stripNumMarker (pyStripChars (stripBulletChars (pyStripChars line))) = s :=
    Option.some.injEq _ _ ▸ h
  refine ⟨h2, pyStripChars_eq_self ?_ ?_⟩
  · exact stripNumMarker_head (fun c hc => head?_pyStripChars hc)
  · exact stripNumMarker_getLast (fun c hc => getLast?_pyStripChars hc)

/-- Membership under the `seen`-set fold comes from the accumulator or
the inserted elements. -/
lemma mem_foldl_dedup {x : List Char} : ∀ (l acc : List (List Char)),
    x ∈ l.foldl (fun out q => if q ∈ out then out else out ++ [q]) acc →
    x ∈ acc ∨ x ∈ l := by
  intro l
  induction l with
  | nil => intro acc h; exact Or.inl h
  | cons a t ih =>
    intro acc h
    rw [List.foldl_cons] at h
    rcases ih _ h with h' | h'
    · split_ifs at h' with hq
      · exact Or.inl h'
      · rcases List.mem_append.mp h' with h'' | h''
        · exact Or.inl h''
        · rw [List.mem_singleton] at h''
          subst h''
          exact Or.inr (List.mem_cons_self _ _)
    · exact Or.inr (List.mem_cons_of_mem a h')

/-- Every element of the deduplicated list occurs in the input. -/
lemma mem_dedupKeepFirst {x : List Char} {l : List (List Char)}
    (h : x ∈ dedupKeepFirst l) : x ∈ l := by
  rcases mem_foldl_dedup l [] h with h' | h'
  · cases h'
  · exact h'

/-- The `seen`-set fold never duplicates an element. -/
lemma nodup_foldl_dedup : ∀ (l acc : List (List Char)), acc.Nodup →
    (l.foldl (fun out q => if q ∈ out then out else out ++ [q]) acc).Nodup := by
  intro l
  induction l with
  | nil => intro acc h; exact h
  | cons a t ih =>
    intro acc h
    rw [List.foldl_cons]
    apply ih
    split_ifs with hq
    · exact h
    · simp [List.nodup_append, h, hq]

/-- The deduplicated list has no duplicates. -/
lemma dedupKeepFirst_nodup (l : List (List Char)) : (dedupKeepFirst l).Nodup :=
  nodup_foldl_dedup l [] List.nodup_nil

/-- Keys after a dict assignment: unchanged when the key exists,
appended otherwise. -/
lemma dictInsert_keys (m : List (String × Doc)) (d : Doc) :
    (dictInsert m d).map Prod.fst =
      if d.page_content ∈ m.map Prod.fst then m.map Prod.fst
      else m.map Prod.fst ++ [d.page_content] := by
  induction m with
  | nil => simp [dictInsert]
  | cons p rest ih =>
    obtain ⟨k, v⟩ := p
    by_cases hk : k = d.page_content
    · subst hk
      simp [dictInsert]
    · simp only [dictInsert, if_neg hk, List.map_cons, ih]
      by_cases hmem : d.page_content ∈ rest.map Prod.fst
      · rw [if_pos hmem, if_pos (List.mem_cons_of_mem k hmem)]
      · rw [if_neg hmem, if_neg (by
          intro hc
          rcases List.mem_cons.mp hc with hc' | hc'
          · exact hk hc'.symm
          · exact hmem hc')]
        rfl

/-- Dict assignment preserves distinctness of keys. -/
lemma dictInsert_fst_nodup {m : List (String × Doc)}
    (h : (m.map Prod.fst).Nodup) (d : Doc) :
    ((dictInsert m d).map Prod.fst).Nodup := by
  rw [dictInsert_keys]
  split_ifs with hmem
  · exact h
  · simp [List.nodup_append, h, hmem]

/-- Dict assignment preserves the invariant that each stored document's
content is its key. -/
lemma dictInsert_content {m : List (String × Doc)} {d : Doc}
    (h : ∀ p ∈ m, (p.2).page_content = p.1) :
    ∀ p ∈ dictInsert m d, (p.2).page_content = p.1 := by
  induction m with
  | nil =>
    intro p hp
    rw [show dictInsert [] d = [(d.page_content, d)] from rfl,
      List.mem_singleton] at hp
    subst hp
    rfl
  | cons q rest ih =>
    intro p hp
    obtain ⟨k, v⟩ := q
    rw [show dictInsert ((k, v) :: rest) d =
        (if k = d.page_content then (k, d) :: rest
         else (k, v) :: dictInsert rest d) from rfl] at hp
    split_ifs at hp with hk
    · rcases List.mem_cons.mp hp with rfl | hp'
      · exact hk.symm
      · exact h p (List.mem_cons_of_mem _ hp')
    · rcases List.mem_cons.mp hp with rfl | hp'
      · exact h (k, v) (List.mem_cons_self _ _)
      · exact ih (fun x hx => h x (List.mem_cons_of_mem _ hx)) p hp'

/-- The dedup dict has pairwise-distinct keys. -/
lemma dedupDict_fst_nodup (docs : List Doc) :
    ((dedupDict docs).map Prod.fst).Nodup := by
  suffices haux : ∀ (l : List Doc) (m : List (String × Doc)),
      (m.map Prod.fst).Nodup →
      ((l.foldl dictInsert m).map Prod.fst).Nodup from
    haux docs [] (by simp)
  intro l
  induction l with
  | nil => intro m h; exact h
  | cons d t ih =>
    intro m h
    rw [List.foldl_cons]
    exact ih _ (dictInsert_fst_nodup h d)

/-- In the dedup dict, each stored document's content is its key. -/
lemma dedupDict_content (docs : List Doc) :
    ∀ p ∈ dedupDict docs, (p.2).page_content = p.1 := by
  suffices haux : ∀ (l : List Doc) (m : List (String × Doc)),
      (∀ p ∈ m, (p.2).page_content = p.1) →
      ∀ p ∈ l.foldl dictInsert m, (p.2).page_content = p.1 from
    haux docs [] (fun p hp => absurd hp (List.not_mem_nil p))
  intro l
  induction l with
  | nil => intro m h; exact h
  | cons d t ih =>
    intro m h
    rw [List.foldl_cons]
    exact ih _ (dictInsert_content h)

/-- Lookup after a dict assignment. -/
lemma dlookup_dictInsert (m : List (String × Doc)) (d : Doc) (k : String) :
    dlookup k (dictInsert m d) =
      if d.page_content = k then some d else dlookup k m := by
  induction m with
  | nil =>
    rw [show dictInsert [] d = [(d.page_content, d)] from rfl]
    rfl
  | cons p rest ih =>
    obtain ⟨k2, v⟩ := p
    by_cases h1 : k2 = d.page_content <;> by_cases h2 : k2 = k
    · have h3 : d.page_content = k := by rw [← h1]; exact h2
      simp [dictInsert, dlookup, h1, h2, h3]
    · have h3 : ¬ d.page_content = k := by rw [← h1]; exact h2
      simp [dictInsert, dlookup, h1, h2, h3]
    · have h1a : ¬ k = d.page_content := h2 ▸ h1
      have h3 : ¬ d.page_content = k := fun hc => h1a hc.symm
      simp [dictInsert, dlookup, h1, h2, h1a, h3]
    · simp [dictInsert, dlookup, h1, h2, ih]

/-- Lookup after building the dedup dict over `l` starting from `m`:
the last document of `l` with the looked-up content, else the lookup in
`m`. -/
lemma dlookup_foldl (l : List Doc) :
    ∀ (m : List (String × Doc)) (k : String),
    dlookup k (l.foldl dictInsert m) =
      Option.or ((l.filter (fun x => x.page_content == k)).getLast?)
        (dlookup k m) := by
  induction l with
  | nil =>
    intro m k
    rw [List.foldl_nil, List.filter_nil, List.getLast?_nil, Option.none_or]
  | cons d t ih =>
    intro m k
    rw [List.foldl_cons, ih, List.filter_cons]
    by_cases hk : d.page_content = k
    · rw [if_pos (by simp [hk])]
      rw [show (d :: t.filter (fun x => x.page_content == k)) =
          [d] ++ t.filter (fun x => x.page_content == k) from rfl]
      rw [List.getLast?_append, dlookup_dictInsert, if_pos hk, Option.or_assoc]
      rfl
    · rw [if_neg (by simp [hk]), dlookup_dictInsert, if_neg hk]

/-- A successful lookup exhibits a member of the association list. -/
lemma mem_of_dlookup {k : String} {v : Doc} :
    ∀ {m : List (String × Doc)}, dlookup k m = some v → (k, v) ∈ m := by
  intro m
  induction m with
  | nil => intro h; cases h
  | cons p rest ih =>
    intro h
    obtain ⟨k2, v2⟩ := p
    rw [show dlookup k ((k2, v2) :: rest) =
        (if k2 = k then some v2 else dlookup k rest) from rfl] at h
    split_ifs at h with hk2
    · rw [Option.some.injEq] at h
      subst hk2
      subst h
      exact List.mem_cons_self _ _
    · exact List.mem_cons_of_mem _ (ih h)

/-- With distinct keys, membership determines the lookup. -/
lemma dlookup_of_mem_nodup :
    ∀ {m : List (String × Doc)}, (m.map Prod.fst).Nodup →
    ∀ {k : String} {v : Doc}, (k, v) ∈ m → dlookup k m = some v := by
  intro m
  induction m with
  | nil => intro _ k v hm; cases hm
  | cons p rest ih =>
    intro hnd k v hm
    obtain ⟨k2, v2⟩ := p
    rw [show dlookup k ((k2, v2) :: rest) =
        (if k2 = k then some v2 else dlookup k rest) from rfl]
    rcases List.mem_cons.mp hm with heq | hm'
    · obtain ⟨rfl, rfl⟩ := Prod.mk.injEq k v k2 v2 ▸ heq
      rw [if_pos rfl]
    · have hk2 : k2 ≠ k := by
        intro hc
        subst hc
        have hkin : k2 ∈ rest.map Prod.fst :=
          List.mem_map.mpr ⟨(k2, v), hm', rfl⟩
        exact (List.nodup_cons.mp (by simpa using hnd)).1 hkin
      rw [if_neg hk2]
      exact ih (List.nodup_cons.mp (by simpa using hnd)).2 hm'

/-- Every pooled document is the last occurrence of its content among
the retrieved documents. -/
lemma dedupPool_last_occurrence {docs : List Doc} {d : Doc}
    (h : d ∈ dedupPool docs) :
    (docs.filter (fun x => x.page_content == d.page_content)).getLast? = some d := by
  rcases List.mem_map.mp h with ⟨p, hmem, hp⟩
  obtain ⟨k, v⟩ := p
  have hv : v = d := hp
  subst hv
  have hk : v.page_content = k := dedupDict_content docs (k, v) hmem
  have hlk : dlookup k (dedupDict docs) = some v :=
    dlookup_of_mem_nodup (dedupDict_fst_nodup docs) hmem
  rw [show dedupDict docs = docs.foldl dictInsert [] from rfl,
    dlookup_foldl docs [] k] at hlk
  rw [show dlookup k [] = none from rfl, Option.or_none] at hlk
  rw [hk]
  exact hlk

/-- Every retrieved content has a representative in the pool. -/
lemma content_mem_dedupPool {docs : List Doc} {d : Doc} (h : d ∈ docs) :
    ∃ e ∈ dedupPool docs, e.page_content = d.page_content := by
  have hmemf : d ∈ docs.filter (fun x => x.page_content == d.page_content) :=
    List.mem_filter.mpr ⟨h, by simp⟩
  cases hlast : (docs.filter (fun x => x.page_content == d.page_content)).getLast? with
  | none =>
    rw [List.getLast?_eq_none_iff] at hlast
    rw [hlast] at hmemf
    cases hmemf
  | some e =>
    have hef : e ∈ docs.filter (fun x => x.page_content == d.page_content) := by
      rcases List.getLast?_eq_some_iff.mp hlast with ⟨ys, hys⟩
      rw [hys]
      exact List.mem_append.mpr (Or.inr (List.mem_singleton.mpr rfl))
    have hec : e.page_content = d.page_content := by
      have h2 := (List.mem_filter.mp hef).2
      simpa using h2
    have hlk : dlookup d.page_content (dedupDict docs) = some e := by
      rw [show dedupDict docs = docs.foldl dictInsert [] from rfl,
        dlookup_foldl docs [] d.page_content, hlast]
      rfl
    exact ⟨e, List.mem_map.mpr ⟨(d.page_content, e), mem_of_dlookup hlk, rfl⟩, hec⟩

/-- The global ranking is a permutation of the pool. -/
lemma globalRanked_perm (docs : List Doc) :
    (globalRanked docs).Perm (dedupPool docs) :=
  List.perm_insertionSort _ _

/-- The global ranking is sorted descending by relevance key. -/
lemma globalRanked_sorted (docs : List Doc) :
    List.Sorted (fun a b => rankKey b ≤ rankKey a) (globalRanked docs) := by
  haveI : IsTotal Doc (fun a b => rankKey b ≤ rankKey a) :=
    ⟨fun a b => le_total (rankKey b) (rankKey a)⟩
  haveI : IsTrans Doc (fun a b => rankKey b ≤ rankKey a) :=
    ⟨fun _ _ _ hab hbc => le_trans hbc hab⟩
  exact List.sorted_insertionSort _ _

/-- Pool contents are pairwise distinct. -/
lemma dedupPool_contents_nodup (docs : List Doc) :
    ((dedupPool docs).map Doc.page_content).Nodup := by
  have hmap : (dedupPool docs).map Doc.page_content = (dedupDict docs).map Prod.fst := by
    rw [show dedupPool docs = (dedupDict docs).map Prod.snd from rfl, List.map_map]
    exact List.map_congr_left (fun p hp => dedupDict_content docs p hp)
  rw [hmap]
  exact dedupDict_fst_nodup docs

end Rag

/-! ## Claim theorems -/

/-- C1: the claim states that `format_reference` renders a present
subsection as `" | § {subsection}"` (section sign U+00A7) and that the
example metadata yields
`"faqs: Password Reset | § Email Flow | file=faqs/reset.md"`.  The code
instead emits the two Thai characters U+0E22 U+0E07 in place of `§`
(its own unit test `test_format_reference_with_subsection` expects the
section sign, so the code contradicts its test): on the example metadata
the code returns the first string below, which differs from the string
the claim requires. -/
theorem C1_format_reference_divergence :
    Rag.format_reference
      { page_content := "content",
        metadata := { category := some "faqs", source_file := some "faqs/reset.md",
                      sectionKey := some "Password Reset", subsection := some "Email Flow" } }
      = "faqs: Password Reset | ยง Email Flow | file=faqs/reset.md" ∧
    "faqs: Password Reset | ยง Email Flow | file=faqs/reset.md" ≠
      "faqs: Password Reset | § Email Flow | file=faqs/reset.md" := by
  constructor
  · rfl
  · decide

/-- C2, counterexample: on the single score `3.4` the evaluator's quality
label is `"partially good"` (with a space), which is none of the three
strings the claim allows. -/
theorem C2_quality_label_counterexample :
    (Rag.evaluate_retrieval [7/2] []).quality ∉
      (["good", "partially_good", "poor"] : List String) := by
  have h : (Rag.evaluate_retrieval [7/2] []).quality = "partially good" := by
    norm_num [Rag.evaluate_retrieval]
  rw [h]; decide

/-- C2 (amended): for every score list and document list, the quality
label of the assessment returned by `evaluate_retrieval` is one of
exactly the three strings `"good"`, `"partially good"`, `"poor"` (the
middle label is spelled with a space, not the underscore the claim
uses); no other label string is ever produced. -/
theorem C2_quality_label_invariant (scores : List ℚ) (docs : List Rag.Doc) :
    (Rag.evaluate_retrieval scores docs).quality ∈
      (["good", "partially good", "poor"] : List String) :=
  Rag.quality_mem_of_evaluate scores docs

/-- C5, counterexample: on the single score `3.4` (top `3.4 > 3`, not
`good`) the claim requires the label `"partially_good"`, but the code
returns a different string (namely `"partially good"`). -/
theorem C5_classification_counterexample :
    (3 : ℚ) < 17/5 ∧ ¬ ((4 : ℚ) < 17/5) ∧
    (Rag.evaluate_retrieval [17/5] []).quality ≠ "partially_good" := by
  refine ⟨by norm_num, by norm_num, ?_⟩
  have h : (Rag.evaluate_retrieval [17/5] []).quality = "partially good" := by
    norm_num [Rag.evaluate_retrieval]
  rw [h]; decide

/-- C5 (amended): empty scores produce
`{quality: "poor", reason: "no_documents_retrieved"}`; for non-empty
scores, with `top = scores[0]` and `gap = scores[0] - scores[1]` when a
second score exists and `gap = scores[0]` otherwise, the quality is
`"good"` iff `top > 4.0 ∧ gap > 0.6`, otherwise `"partially good"`
(with a space, not the underscore the claim uses) iff `top > 3.0`,
otherwise `"poor"`; and the returned `avg`, `top` and `gap` fields are
the rounded-to-3-decimals values. -/
theorem C5_evaluate_retrieval_correct (scores : List ℚ) (docs : List Rag.Doc) :
    (scores = [] → Rag.evaluate_retrieval scores docs =
      { quality := "poor", reason := some "no_documents_retrieved" }) ∧
    (∀ s0 rest, scores = s0 :: rest →
      ((Rag.evaluate_retrieval scores docs).quality = "good" ↔
        s0 > 4 ∧ (match rest with | s1 :: _ => s0 - s1 | [] => s0) > 3/5) ∧
      ((Rag.evaluate_retrieval scores docs).quality = "partially good" ↔
        ¬ (s0 > 4 ∧ (match rest with | s1 :: _ => s0 - s1 | [] => s0) > 3/5) ∧ s0 > 3) ∧
      ((Rag.evaluate_retrieval scores docs).quality = "poor" ↔
        ¬ (s0 > 4 ∧ (match rest with | s1 :: _ => s0 - s1 | [] => s0) > 3/5) ∧ ¬ s0 > 3) ∧
      (Rag.evaluate_retrieval scores docs).avg_relevance_score =
        some (Rag.round3 (scores.sum / (scores.length : ℚ))) ∧
      (Rag.evaluate_retrieval scores docs).top_relevance_score = some (Rag.round3 s0) ∧
      (Rag.evaluate_retrieval scores docs).score_gap =
        some (Rag.round3 (match rest with | s1 :: _ => s0 - s1 | [] => s0)) ∧
      (Rag.evaluate_retrieval scores docs).reason = none) := by
  constructor
  · intro h; subst h; rfl
  · intro s0 rest h; subst h
    simp only [Rag.evaluate_retrieval]
    split_ifs with h1 h2 <;> simp_all

/-- C5, witness. -/
theorem C5_evaluate_retrieval_correct_witness :
    Rag.evaluate_retrieval [] [] =
      { quality := "poor", reason := some "no_documents_retrieved" } ∧
    (Rag.evaluate_retrieval [5, 1] []).quality = "good" := by
  refine ⟨(C5_evaluate_retrieval_correct [] []).1 rfl, ?_⟩
  exact (((C5_evaluate_retrieval_correct [5, 1] []).2 5 [1] rfl).1).mpr (by norm_num)

/-- C4: after generation and action inference, when the aggregate quality
is `"poor"` and the resolved action is `"none"`, the override forces
`action_required` to `"follow_up_required"`; in every other combination
the result is unchanged; the answer text (and references) are returned
either way. -/
theorem C4_safety_override_correct (q : String) (r : Rag.GenResult) :
    (q = "poor" → r.action_required = "none" →
      Rag.applySafetyOverride q r = { r with action_required := "follow_up_required" }) ∧
    (¬ (q = "poor" ∧ r.action_required = "none") → Rag.applySafetyOverride q r = r) ∧
    (Rag.applySafetyOverride q r).answer = r.answer ∧
    (Rag.applySafetyOverride q r).references = r.references := by
  refine ⟨?_, ?_, ?_, ?_⟩
  · intro hq ha
    simp [Rag.applySafetyOverride, hq, ha]
  · intro hn
    simp only [Rag.applySafetyOverride]
    split_ifs with h1 h2
    · exact absurd ⟨h1, h2⟩ hn
    · rfl
    · rfl
  · simp only [Rag.applySafetyOverride]
    split_ifs <;> rfl
  · simp only [Rag.applySafetyOverride]
    split_ifs <;> rfl

/-- C4, witness. -/
theorem C4_safety_override_witness :
    Rag.applySafetyOverride "poor"
        { answer := "Answer", references := [], action_required := "none" } =
      { answer := "Answer", references := [], action_required := "follow_up_required" } ∧
    Rag.applySafetyOverride "good"
        { answer := "Answer", references := [], action_required := "none" } =
      { answer := "Answer", references := [], action_required := "none" } := by
  constructor
  · exact (C4_safety_override_correct "poor"
      { answer := "Answer", references := [], action_required := "none" }).1 rfl rfl
  · exact (C4_safety_override_correct "good"
      { answer := "Answer", references := [], action_required := "none" }).2.1 (by simp)

/-- C7: response validation rejects every answer that is blank after
trimming or longer than 5000 characters, rejects (rather than truncates)
references when more than 3 survive blank-dropping, and rejects any
`action_required` outside the closed 7-value enum — in particular the
internal `"no_action"` sentinel, which `generate_answer` normalizes to
`"none"` before constructing the response. -/
theorem C7_validation_rejections :
    (∀ a refs act, Rag.pyStrip a = "" → (Rag.mcpValidate a refs act).isOk = false) ∧
    (∀ a refs act, a.length > 5000 → (Rag.mcpValidate a refs act).isOk = false) ∧
    (∀ a refs act, (Rag.cleanedRefs refs).length > 3 →
      (Rag.mcpValidate a refs act).isOk = false) ∧
    (∀ a refs act, act ∉ Rag.actionEnum → (Rag.mcpValidate a refs act).isOk = false) ∧
    "no_action" ∉ Rag.actionEnum ∧
    Rag.normalizeAction "no_action" = "none" := by
  refine ⟨?_, ?_, ?_, ?_, by decide, by decide⟩ <;>
    (intro a refs act h
     simp only [Rag.mcpValidate]
     split_ifs <;> simp_all [Except.isOk, Except.toBool])

/-- C7, witness. -/
theorem C7_validation_rejections_witness :
    (Rag.mcpValidate "   " [] "none").isOk = false ∧
    (Rag.mcpValidate (String.mk (List.replicate 5001 'a')) [] "none").isOk = false ∧
    (Rag.mcpValidate "Answer" ["r1", "r2", "r3", "r4"] "none").isOk = false ∧
    (Rag.mcpValidate "Answer" [] "no_action").isOk = false := by
  refine ⟨C7_validation_rejections.1 "   " [] "none" (by decide),
          C7_validation_rejections.2.1 _ [] "none" ?_,
          C7_validation_rejections.2.2.1 "Answer" ["r1", "r2", "r3", "r4"] "none" (by decide),
          C7_validation_rejections.2.2.2.1 "Answer" [] "no_action" (by decide)⟩
  show 5000 < (List.replicate 5001 'a').length
  rw [List.length_replicate]
  decide

/-- C3: over per-query assessments produced by the evaluator, iterated in
query order, the aggregate assessment is the last one labelled `"good"`
when any exists and otherwise stays the initial `{quality: "poor"}`; the
secondary upgrade branch tests a `"weak"` label the evaluator never
produces, so it is never taken. -/
theorem C3_aggregate_quality (evals : List Rag.EvalResult)
    (h : ∀ e ∈ evals, ∃ scores docs, e = Rag.evaluate_retrieval scores docs) :
    Rag.aggregateEval evals =
      ((evals.filter (fun e => e.quality == "good")).getLast?).getD Rag.initBestEval ∧
    ∀ e ∈ evals, e.quality ≠ "weak" := by
  have hw : ∀ e ∈ evals, e.quality ≠ "weak" := by
    intro e he
    rcases h e he with ⟨s, d, rfl⟩
    exact Rag.quality_ne_weak_of_evaluate s d
  exact ⟨Rag.foldl_bestEvalStep evals hw Rag.initBestEval, hw⟩

/-- C3, witness: with a poor, a good and a partially-good assessment, the
aggregate is the good one. -/
theorem C3_aggregate_quality_witness :
    Rag.aggregateEval
        [Rag.evaluate_retrieval [1] [], Rag.evaluate_retrieval [5, 1] [],
         Rag.evaluate_retrieval [7/2] []] =
      Rag.evaluate_retrieval [5, 1] [] := by
  have hq1 : (Rag.evaluate_retrieval [1] []).quality = "poor" := by
    norm_num [Rag.evaluate_retrieval]
  have hq2 : (Rag.evaluate_retrieval [5, 1] []).quality = "good" := by
    norm_num [Rag.evaluate_retrieval]
  have hq3 : (Rag.evaluate_retrieval [7/2] []).quality = "partially good" := by
    norm_num [Rag.evaluate_retrieval]
  have hmem : ∀ e ∈ [Rag.evaluate_retrieval [1] [], Rag.evaluate_retrieval [5, 1] [],
      Rag.evaluate_retrieval [7/2] []],
      ∃ scores docs, e = Rag.evaluate_retrieval scores docs := by
    intro e he
    simp only [List.mem_cons, List.not_mem_nil, or_false] at he
    rcases he with rfl | rfl | rfl
    · exact ⟨[1], [], rfl⟩
    · exact ⟨[5, 1], [], rfl⟩
    · exact ⟨[7/2], [], rfl⟩
  rw [(C3_aggregate_quality _ hmem).1]
  simp [List.filter_cons, hq1, hq2, hq3]

/-- C8: for every answer text (with similarity rows coming from
normalized embeddings, hence bounded by `1`), the inferred confidence
lies in `[0, 1]` and is an exact multiple of `1/1000` (a value rounded
to 3 decimals); a blank answer returns exactly
`{action: "no_action", confidence: 0.0}` without consulting the
similarity rows; and when the best score is below the threshold the
action is `"no_action"` with confidence `round(best, 3)`. -/
theorem C8_infer_action_confidence (answer : String)
    (sims : List (String × List ℚ)) (threshold : ℚ)
    (hsims : ∀ p ∈ sims, ∀ s ∈ p.2, s ≤ 1) :
    0 ≤ (Rag.infer_action answer sims threshold).2 ∧
    (Rag.infer_action answer sims threshold).2 ≤ 1 ∧
    (∃ n : ℤ, (Rag.infer_action answer sims threshold).2 = (n : ℚ) / 1000) ∧
    (Rag.pyStrip answer = "" →
      Rag.infer_action answer sims threshold = ("no_action", 0)) ∧
    (Rag.pyStrip answer ≠ "" → (Rag.bestAction sims).2 < threshold →
      Rag.infer_action answer sims threshold =
        ("no_action", Rag.round3 (Rag.bestAction sims).2)) := by
  by_cases hb : answer = "" ∨ Rag.pyStrip answer = ""
  · have hb' : Rag.pyStrip answer = "" := by
      rcases hb with h | h
      · rw [h]; rfl
      · exact h
    have he : Rag.infer_action answer sims threshold = ("no_action", 0) := by
      simp [Rag.infer_action, hb']
    rw [he]
    exact ⟨le_refl 0, by norm_num, ⟨0, by norm_num⟩, fun _ => rfl,
      fun hne _ => absurd hb' hne⟩
  · have hb' : Rag.pyStrip answer ≠ "" := fun h => hb (Or.inr h)
    have h0 : 0 ≤ (Rag.bestAction sims).2 := Rag.bestAction_snd_nonneg sims
    have h1 : (Rag.bestAction sims).2 ≤ 1 := Rag.bestAction_snd_le_one sims hsims
    have hne : Rag.infer_action answer sims threshold =
        (if (Rag.bestAction sims).2 < threshold then
          ("no_action", Rag.round3 (Rag.bestAction sims).2)
         else ((Rag.bestAction sims).1, Rag.round3 (Rag.bestAction sims).2)) := by
      simp only [Rag.infer_action, if_neg hb]
    rw [hne]
    by_cases hlt : (Rag.bestAction sims).2 < threshold
    · rw [if_pos hlt]
      exact ⟨Rag.round3_nonneg h0, Rag.round3_le_one h1,
        ⟨Rag.roundHalfEven ((Rag.bestAction sims).2 * 1000), rfl⟩,
        fun h => absurd h hb', fun _ _ => rfl⟩
    · rw [if_neg hlt]
      exact ⟨Rag.round3_nonneg h0, Rag.round3_le_one h1,
        ⟨Rag.roundHalfEven ((Rag.bestAction sims).2 * 1000), rfl⟩,
        fun h => absurd h hb', fun _ hlt2 => absurd hlt2 hlt⟩

/-- C8, witness. -/
theorem C8_infer_action_confidence_witness :
    0 ≤ (Rag.infer_action "hello" [("escalate_to_billing", [1/2, 7/10])] (1/2)).2 ∧
    (Rag.infer_action "hello" [("escalate_to_billing", [1/2, 7/10])] (1/2)).2 ≤ 1 ∧
    (∃ n : ℤ, (Rag.infer_action "hello" [("escalate_to_billing", [1/2, 7/10])] (1/2)).2 =
      (n : ℚ) / 1000) ∧
    (Rag.pyStrip "hello" = "" →
      Rag.infer_action "hello" [("escalate_to_billing", [1/2, 7/10])] (1/2) =
        ("no_action", 0)) ∧
    (Rag.pyStrip "hello" ≠ "" →
      (Rag.bestAction [("escalate_to_billing", [1/2, 7/10])]).2 < 1/2 →
      Rag.infer_action "hello" [("escalate_to_billing", [1/2, 7/10])] (1/2) =
        ("no_action", Rag.round3 (Rag.bestAction [("escalate_to_billing", [1/2, 7/10])]).2)) :=
  C8_infer_action_confidence "hello" [("escalate_to_billing", [1/2, 7/10])] (1/2)
    (by
      intro p hp s hs
      simp only [List.mem_singleton] at hp
      subst hp
      simp only [List.mem_cons, List.not_mem_nil, or_false] at hs
      rcases hs with rfl | rfl <;> norm_num)

/-- C9: for every non-blank ticket and every collaborator response, the
rewriter succeeds and its query list is deduplicated by exact string
equality (no duplicates, first-seen order preserved) and holds at most 5
queries, the blank lines having been dropped and bullet/numeric list
markers stripped. -/
theorem C9_rewrite_ticket_dedup (ticket : String) (response : Option String)
    (h : Rag.pyStrip ticket ≠ "") :
    Rag.rewrite_ticket ticket response = .ok (Rag.rewrittenQueries response) ∧
    (Rag.rewrittenQueries response).Nodup ∧
    (Rag.rewrittenQueries response).length ≤ 5 := by
  refine ⟨?_, ?_, ?_⟩
  · have ht : ¬ (ticket = "" ∨ Rag.pyStrip ticket = "") := by
      rintro (rfl | hs)
      · exact h rfl
      · exact h hs
    rw [Rag.rewrite_ticket, if_neg ht]
  · unfold Rag.rewrittenQueries
    apply List.Nodup.map
    · intro a b hab
      injection hab
    · exact (List.take_sublist 5 _).nodup (Rag.dedupKeepFirst_nodup _)
  · unfold Rag.rewrittenQueries
    rw [List.length_map]
    exact List.length_take_le 5 _

/-- C9, witness. -/
theorem C9_rewrite_ticket_dedup_witness :
    Rag.rewrite_ticket "Help" (some "a\na\nb") =
      .ok (Rag.rewrittenQueries (some "a\na\nb")) ∧
    (Rag.rewrittenQueries (some "a\na\nb")).Nodup ∧
    (Rag.rewrittenQueries (some "a\na\nb")).length ≤ 5 :=
  C9_rewrite_ticket_dedup "Help" (some "a\na\nb") (by decide)

/-- C10: every string the rewriter returns is non-empty and carries no
leading or trailing whitespace (stripping it is the identity), for every
collaborator response including `None`. -/
theorem C10_queries_nonblank_trimmed (response : Option String) (q : String)
    (hq : q ∈ Rag.rewrittenQueries response) :
    q ≠ "" ∧ Rag.pyStrip q = q := by
  unfold Rag.rewrittenQueries at hq
  rcases List.mem_map.mp hq with ⟨l, hl, rfl⟩
  have hl2 : l ∈ Rag.dedupKeepFirst
      ((Rag.pySplitlines (response.getD "")).filterMap Rag.cleanLine) :=
    (List.take_sublist 5 _).subset hl
  have hl3 := Rag.mem_dedupKeepFirst hl2
  rcases List.mem_filterMap.mp hl3 with ⟨line, _, hcl⟩
  obtain ⟨hne, hstrip⟩ := Rag.cleanLine_stripped hcl
  constructor
  · intro hcon
    apply hne
    have hdata := congrArg String.data hcon
    simpa using hdata
  · show Rag.pyStrip (String.mk l) = String.mk l
    unfold Rag.pyStrip
    rw [show (String.mk l).data = l from rfl, hstrip]

/-- C10, witness. -/
theorem C10_queries_nonblank_trimmed_witness :
    ("x" : String) ≠ "" ∧ Rag.pyStrip "x" = "x" :=
  C10_queries_nonblank_trimmed (some "x") "x" (by decide)

/-- C6: for every list of per-query kept document lists, the final
document list of the aggregator (i) holds at most 4 documents, (ii) is
sorted descending by `relevance_score` with missing scores sorting last
(key `⊥`), (iii) holds pairwise-distinct contents, (iv) contains, for
each of its documents, exactly the last occurrence of that content in
the concatenated per-query documents (so the last duplicate's metadata
wins), and (v) covers every retrieved content whenever the deduplicated
pool fits the cap of 4. -/
theorem C6_cross_query_aggregation (docLists : List (List Rag.Doc)) :
    (Rag.finalRankedDocs docLists).length ≤ 4 ∧
    List.Sorted (fun a b => Rag.rankKey b ≤ Rag.rankKey a)
      (Rag.finalRankedDocs docLists) ∧
    ((Rag.finalRankedDocs docLists).map Rag.Doc.page_content).Nodup ∧
    (∀ d ∈ Rag.finalRankedDocs docLists,
      (docLists.flatten.filter
        (fun x => x.page_content == d.page_content)).getLast? = some d) ∧
    ((Rag.dedupPool docLists.flatten).length ≤ 4 →
      ∀ d ∈ docLists.flatten, ∃ e ∈ Rag.finalRankedDocs docLists,
        e.page_content = d.page_content) := by
  refine ⟨?_, ?_, ?_, ?_, ?_⟩
  · exact List.length_take_le 4 _
  · exact List.Pairwise.sublist (List.take_sublist 4 _)
      (Rag.globalRanked_sorted docLists.flatten)
  · have h1 : ((Rag.globalRanked docLists.flatten).map Rag.Doc.page_content).Nodup :=
      (((Rag.globalRanked_perm docLists.flatten).map Rag.Doc.page_content).nodup_iff).mpr
        (Rag.dedupPool_contents_nodup _)
    exact ((List.take_sublist 4 _).map _).nodup h1
  · intro d hd
    have hd1 : d ∈ Rag.globalRanked docLists.flatten :=
      (List.take_sublist 4 _).subset hd
    have hd2 : d ∈ Rag.dedupPool docLists.flatten :=
      ((Rag.globalRanked_perm docLists.flatten).mem_iff).mp hd1
    exact Rag.dedupPool_last_occurrence hd2
  · intro hlen d hd
    rcases Rag.content_mem_dedupPool hd with ⟨e, he, hec⟩
    have he2 : e ∈ Rag.globalRanked docLists.flatten :=
      ((Rag.globalRanked_perm docLists.flatten).mem_iff).mpr he
    have htake : Rag.finalRankedDocs docLists = Rag.globalRanked docLists.flatten := by
      unfold Rag.finalRankedDocs
      apply List.take_of_length_le
      rw [(Rag.globalRanked_perm docLists.flatten).length_eq]
      exact hlen
    exact ⟨e, htake ▸ he2, hec⟩

/-- C6, witness: content `"A"` retrieved twice (scores 2, then 7 from a
later query) and content `"B"` once keep a representative of each
content in the final list. -/
theorem C6_cross_query_aggregation_witness :
    ∃ e ∈ Rag.finalRankedDocs
        [[{ page_content := "A", metadata := { relevance_score := some 2 } },
          { page_content := "B", metadata := { relevance_score := some 5 } }],
         [{ page_content := "A", metadata := { relevance_score := some 7 } }]],
      e.page_content =
        ({ page_content := "A",
           metadata := { relevance_score := some 7 } } : Rag.Doc).page_content :=
  (C6_cross_query_aggregation
      [[{ page_content := "A", metadata := { relevance_score := some 2 } },
        { page_content := "B", metadata := { relevance_score := some 5 } }],
       [{ page_content := "A", metadata := { relevance_score := some 7 } }]]).2.2.2.2
    (by decide)
    { page_content := "A", metadata := { relevance_score := some 7 } }
    (by decide)
